import Mathlib

/-!
Shallow embedding of `slahmr/run_rerun_vis.py`: rerun-based visualization of
SLAHMR multi-person motion-reconstruction results.

Logging calls of the `rerun` library are modelled as pure events carrying the
timeline key (`rr.set_time_sequence` state) active when they are issued.
External collaborators (scipy rotation conversion, trimesh vertex normals, the
SMPL body model, the dataset adapter, `os.walk`) are modelled as parameters.
Real scalars are modelled by `ℚ`.
-/

namespace RerunVis

abbrev Vec3 := ℚ × ℚ × ℚ
abbrev Quat := ℚ × ℚ × ℚ × ℚ
abbrev Mat3 := List (List ℚ)
abbrev Face := Nat × Nat × Nat

/-- Little-endian decimal digits of a natural number (empty for 0). -/
def toDigitsLE (n : Nat) : List Nat :=
  if h : n = 0 then []
  else (n % 10) :: toDigitsLE (n / 10)
decreasing_by exact Nat.div_lt_self (Nat.pos_of_ne_zero h) (by decide)

/-- Value of a little-endian decimal digit list. -/
def fromDigitsLE : List Nat → Nat
  | [] => 0
  | d :: ds => d + 10 * fromDigitsLE ds

/-- Decimal digit to character. -/
def digitToChar (d : Nat) : Char :=
  Char.ofNat (48 + d)

/-- Character to decimal digit (left inverse of `digitToChar` below 10). -/
def charToDigit (c : Char) : Nat :=
  c.toNat - 48

/-- Models Python `str(n)` / f-string formatting of a nonnegative integer. -/
def natStr (n : Nat) : String :=
  if n = 0 then "0" else String.mk ((toDigitsLE n).reverse.map digitToChar)

/-- Left inverse of `natStr`. -/
def strToNat (s : String) : Nat :=
  fromDigitsLE ((s.data.map charToDigit).reverse)

/-- Models Python string `<=` (lexicographic on code points) on char lists. -/
def charListLe : List Char → List Char → Bool
  | [], _ => true
  | _ :: _, [] => false
  | a :: as, b :: bs =>
    if a.toNat < b.toNat then true
    else if b.toNat < a.toNat then false
    else charListLe as bs

/-- Models Python string `<=` (lexicographic comparison by code point). -/
def strLe (a b : String) : Bool := charListLe a.data b.data

/-- Insert into a `strLe`-sorted list, keeping it sorted. -/
def insertSorted (x : String) : List String → List String
  | [] => [x]
  | y :: ys => if strLe x y then x :: y :: ys else y :: insertSorted x ys

/-- Models Python `sorted` on a list of strings. -/
def pySorted (l : List String) : List String := l.foldr insertSorted []

/-- Models `sorted(res_path_dict.keys())[-1]` (`run_rerun_vis.py:61`);
`none` corresponds to Python's `IndexError` on an empty key list. -/
def selectIteration (keys : List String) : Option String :=
  (pySorted keys).getLast?

/-- One logged record of the recording sink, tagged with the timeline key
(`input_frame_id`) that was current when it was issued. -/
inductive Event where
  | viewCoords (path up : String)
  | imageFile (path : String) (frame : Nat) (img : String)
  | pinhole (path : String) (frame : Nat) (childFromParent : Mat3)
      (width height : Nat)
  | rigid3 (path : String) (frame : Nat) (t : Vec3) (q : Quat)
  | mesh (path : String) (frame : Nat) (verts : List Vec3) (faces : List Face)
      (normals : List Vec3)
  | lineSegments (path : String) (frame : Nat) (pts : List (ℚ × ℚ))
  | cleared (path : String) (frame : Nat)
  | save (path : String)
  | printMsg (msg : String)
  deriving DecidableEq, Repr

/-- Entity path of an event, when it has one. -/
def Event.entityPath : Event → Option String
  | .viewCoords p _ => some p
  | .imageFile p _ _ => some p
  | .pinhole p _ _ _ _ => some p
  | .rigid3 p _ _ _ => some p
  | .mesh p _ _ _ _ => some p
  | .lineSegments p _ _ => some p
  | .cleared p _ => some p
  | .save _ => none
  | .printMsg _ => none

/-- Timeline key of an event, when it has one. -/
def Event.timelineKey : Event → Option Nat
  | .viewCoords _ _ => none
  | .imageFile _ f _ => some f
  | .pinhole _ f _ _ _ => some f
  | .rigid3 _ f _ _ => some f
  | .mesh _ f _ _ _ => some f
  | .lineSegments _ f _ => some f
  | .cleared _ f => some f
  | .save _ => none
  | .printMsg _ => none

/-- The events with a given entity path and timeline key. -/
def eventsAt (path : String) (f : Nat) (evs : List Event) : List Event :=
  evs.filter fun e => decide (e.entityPath = some path ∧ e.timelineKey = some f)

/-- The dataset adapter interface consumed by the visualizer
(`MultiPeopleDataset`): per-track/frame visibility codes, 2D keypoints with a
trailing confidence channel, the defining camera stream, and image data. -/
structure MultiPeopleDataset where
  track_ids : List Nat
  seq_len : Nat
  vis_mask : Nat → Nat → Int
  joints2d : Nat → Nat → Nat → ℚ × ℚ × ℚ
  cam_t : Nat → Vec3
  cam_R : Nat → Mat3
  intrins : Nat → ℚ × ℚ × ℚ × ℚ
  img_size : Nat × Nat
  sel_img_paths : List String

/-- A phase's `"world"` result block, as consumed by `log_phase_result`:
pose parameters are opaque (they are only passed to the body model), the
camera stream is indexed by a leading batch index and the frame. -/
structure PhaseResult where
  cam_t : Nat → Nat → Vec3
  cam_R : Nat → Nat → Mat3
  poseParams : Nat

/-- Output of `run_smpl`: per-(track, frame) vertices and shared faces. -/
structure SmplOutput where
  vertices : Nat → Nat → List Vec3
  faces : List Face

/-- External collaborators: scipy's matrix-to-quaternion conversion, trimesh's
vertex-normal computation, and the SMPL body-model evaluation (which consumes
the phase result's pose parameters). -/
structure Extern where
  matToQuat : Mat3 → Quat
  vertexNormals : List Vec3 → List Face → List Vec3
  runSmpl : PhaseResult → SmplOutput

/-- Entity path `f"world/phase_{phase}/#{i}"` (`run_rerun_vis.py:134,141`). -/
def meshPath (phase : String) (i : Nat) : String :=
  "world/phase_" ++ phase ++ "/#" ++ natStr i

/-- Entity path `f"world/camera/image/skeleton/#{i}"`
(`run_rerun_vis.py:191,196`). -/
def skelPath (i : Nat) : String :=
  "world/camera/image/skeleton/#" ++ natStr i

/-- `log_input_frames`: one image event per entry of `sel_img_paths`, keyed
by its position. -/
def log_input_frames (ds : MultiPeopleDataset) : List Event :=
  ds.sel_img_paths.enum.map fun p =>
    .imageFile "world/camera/image" p.1 p.2

/-- `log_camera`: per frame, a pinhole descriptor and a rigid transform of
the defining camera stream, both under the `world/camera` subtree. -/
def log_camera (ext : Extern) (ds : MultiPeopleDataset) : List Event :=
  (List.range ds.seq_len).flatMap fun frame_id =>
    let translation := ds.cam_t frame_id
    let rotation_q := ext.matToQuat (ds.cam_R frame_id)
    let i := ds.intrins frame_id
    [ .pinhole "world/camera/image" frame_id
        [[i.1, 0, i.2.2.1], [0, i.2.1, i.2.2.2], [0, 0, 1]]
        ds.img_size.1 ds.img_size.2,
      .rigid3 "world/camera" frame_id translation rotation_q ]

/-- The constant anatomical edge table `skeleton_ids`
(`run_rerun_vis.py:159-181`). -/
def skeleton_ids : List (Nat × Nat) :=
  [(15, 13), (13, 11), (16, 14), (14, 12), (11, 12), (5, 11), (6, 12),
   (5, 6), (5, 7), (6, 8), (7, 9), (8, 10), (1, 2), (0, 1), (0, 2),
   (1, 3), (2, 4), (3, 5), (4, 6)]

/-- The constant joint permutation table `idcs` (`run_rerun_vis.py:183`). -/
def idcs : List Nat :=
  [0, 16, 15, 18, 17, 5, 2, 6, 3, 7, 4, 12, 9, 13, 10, 14, 11]

/-- `frame_joints[idcs]`: raw joints remapped into canonical order. -/
def remappedJoint (frame_joints : Nat → ℚ × ℚ × ℚ) (k : Nat) : ℚ × ℚ × ℚ :=
  frame_joints (idcs.getD k 0)

/-- Row of `joints = frame_joints[idcs][skeleton_ids]` for one edge: the two
remapped endpoint triples of the candidate segment. -/
def segEndpoints (frame_joints : Nat → ℚ × ℚ × ℚ) (e : Nat × Nat) :
    (ℚ × ℚ × ℚ) × (ℚ × ℚ × ℚ) :=
  (remappedJoint frame_joints e.1, remappedJoint frame_joints e.2)

/-- `joints[..., 2].min(axis=-1)` for one edge: the minimum of the two
endpoint confidence channels. -/
def segConfidence (frame_joints : Nat → ℚ × ℚ × ℚ) (e : Nat × Nat) : ℚ :=
  min (segEndpoints frame_joints e).1.2.2 (segEndpoints frame_joints e).2.2.2

/-- The rows selected by the mask `joint_confidence > 0.3`
(`run_rerun_vis.py:186`), as edges of the table. -/
def goodSegments (frame_joints : Nat → ℚ × ℚ × ℚ) : List (Nat × Nat) :=
  skeleton_ids.filter fun e => decide (segConfidence frame_joints e > 3 / 10)

/-- `good_joints_xy.reshape(-2, 2)`: the surviving segments flattened into a
single list of 2D endpoints (two per segment, in edge-table order). -/
def goodJointsXY (frame_joints : Nat → ℚ × ℚ × ℚ) : List (ℚ × ℚ) :=
  (goodSegments frame_joints).flatMap fun e =>
    [((segEndpoints frame_joints e).1.1, (segEndpoints frame_joints e).1.2.1),
     ((segEndpoints frame_joints e).2.1, (segEndpoints frame_joints e).2.2.1)]

/-- The single event `log_skeleton_2d` issues for track `i` at frame `f`:
line segments when any segment survives the confidence filter, otherwise an
explicit clear. -/
def skeletonFrameEvent (ds : MultiPeopleDataset) (i f : Nat) : Event :=
  let pts := goodJointsXY (ds.joints2d i f)
  if pts.length ≠ 0 then .lineSegments (skelPath i) f pts
  else .cleared (skelPath i) f

/-- `log_skeleton_2d`: for each track, for each frame, one overlay event. -/
def log_skeleton_2d (ds : MultiPeopleDataset) : List Event :=
  (List.range ds.track_ids.length).flatMap fun i =>
    (List.range ds.seq_len).map fun f => skeletonFrameEvent ds i f

/-- The phase camera event of `log_phase_result` at frame `f`: the rigid
transform taken from the result's camera arrays at leading index 1
(`phase_result["cam_t"][1, frame_id]`, `run_rerun_vis.py:121-128`). -/
def phaseCamEvent (ext : Extern) (pr : PhaseResult) (f : Nat) : Event :=
  .rigid3 "world/camera" f (pr.cam_t 1 f) (ext.matToQuat (pr.cam_R 1 f))

/-- The per-track event of `log_phase_result` at frame `f`: a mesh when
`vis_mask[i][frame_id] >= 0`, an explicit clear otherwise
(`run_rerun_vis.py:130-142`). -/
def phaseTrackEvent (ext : Extern) (ds : MultiPeopleDataset) (phase : String)
    (smpl : SmplOutput) (i f : Nat) : Event :=
  if ds.vis_mask i f ≥ 0 then
    .mesh (meshPath phase i) f (smpl.vertices i f) smpl.faces
      (ext.vertexNormals (smpl.vertices i f) smpl.faces)
  else
    .cleared (meshPath phase i) f

/-- `log_phase_result`: the body model is evaluated once for the whole batch;
then per frame the phase camera pose is logged, followed by one event per
track position. -/
def log_phase_result (ext : Extern) (ds : MultiPeopleDataset) (phase : String)
    (pr : PhaseResult) : List Event :=
  let smpl := ext.runSmpl pr
  (List.range ds.seq_len).flatMap fun f =>
    phaseCamEvent ext pr f ::
      (List.range ds.track_ids.length).map fun i =>
        phaseTrackEvent ext ds phase smpl i f

/-- One phase directory of the result-snapshot store: whether
`os.path.isdir(phase_dir)` holds, the keys of `get_results_paths(phase_dir)`,
and the `"world"` block of `load_result` per iteration key. -/
structure PhaseStore where
  isdir : Bool
  keys : List String
  world : String → PhaseResult

/-- The phase loop of `log_to_rerun` (`run_rerun_vis.py:53-67`): the synthetic
`"input"` phase uses `get_input_dict(dataset)` (modelled by `inputRes`); an
existing phase directory resolves the last sorted iteration key and loads its
`"world"` block; a missing directory prints a diagnostic and continues.
An empty key list is Python's `IndexError` (modelled as `Except.error`). -/
def runPhases (ext : Extern) (ds : MultiPeopleDataset) (inputRes : PhaseResult)
    (log_dir : String) (env : String → PhaseStore) :
    List String → Except String (List Event)
  | [] => .ok []
  | phase :: rest =>
    let phase_dir := log_dir ++ "/" ++ phase
    if phase = "input" then
      (runPhases ext ds inputRes log_dir env rest).map fun evs =>
        log_phase_result ext ds phase inputRes ++ evs
    else if (env phase).isdir then
      match selectIteration (env phase).keys with
      | some it =>
        (runPhases ext ds inputRes log_dir env rest).map fun evs =>
          log_phase_result ext ds phase ((env phase).world it) ++ evs
      | none => .error "IndexError: list index out of range"
    else
      (runPhases ext ds inputRes log_dir env rest).map fun evs =>
        .printMsg (phase_dir ++ " does not exist, skipping") :: evs

/-- `log_to_rerun`: world coordinates, raw frames, 2D skeletons, the defining
camera, then the phase loop (`run_rerun_vis.py:24-67`). -/
def log_to_rerun (ext : Extern) (ds : MultiPeopleDataset)
    (inputRes : PhaseResult) (log_dir : String) (env : String → PhaseStore)
    (phases : List String) : Except String (List Event) :=
  (runPhases ext ds inputRes log_dir env phases).map fun phaseEvs =>
    .viewCoords "world" "-Y" ::
      (log_input_frames ds ++ log_skeleton_2d ds ++ log_camera ext ds ++
        phaseEvs)

/-- `log_to_rrd` (`run_rerun_vis.py:199-212`): prints the log directory and
sources, skips the whole run when the dataset has no tracks, otherwise logs
everything and saves the recording to `save_dir/log.rrd`. -/
def log_to_rrd (ext : Extern) (ds : MultiPeopleDataset)
    (inputRes : PhaseResult) (sources : String) (log_dir save_dir : String)
    (env : String → PhaseStore) (phases : List String) :
    Except String (List Event) :=
  let pre := [Event.printMsg log_dir, Event.printMsg ("SOURCES " ++ sources)]
  if ds.track_ids.length < 1 then
    .ok (pre ++ [Event.printMsg "No tracks in dataset, skipping"])
  else
    (log_to_rerun ext ds inputRes log_dir env phases).map fun evs =>
      pre ++ evs ++ [Event.save (save_dir ++ "/log.rrd")]

/-- The discovery loop of `main` (`run_rerun_vis.py:251-253`) over the output
of `os.walk(log_root)` (an external collaborator, modelled as the list of
`(root, subdirectories, files)` triples it yields): a run is every walked
directory whose subdirectory list contains the `.hydra` sentinel. -/
def discoverLogDirs (walk : List (String × List String × List String)) :
    List String :=
  (walk.filter fun entry => decide (".hydra" ∈ entry.2.1)).map fun entry =>
    entry.1

/-- The command-line arguments consumed by `launch_rerun_vis` and `main`,
after `main` stored the discovered run directories in `log_dirs`. -/
structure Args where
  log_root : String
  save_root : Option String
  phases : List String
  gpus : List Nat
  log_dirs : List String

/-- A side effect of one worker: an environment-variable assignment, a
directory creation, or a logging-sink record. -/
inductive Action where
  | setEnv (key value : String)
  | makedirs (dir : String)
  | emit (e : Event)
  deriving DecidableEq, Repr

/-- Python `s.strip("/")`. -/
def stripSlash (s : String) : String :=
  String.mk (((s.data.dropWhile fun c => c = '/').reverse.dropWhile
    fun c => c = '/').reverse)

/-- `exp_name` computation of `launch_rerun_vis` (`run_rerun_vis.py:220-221`):
the first two path components of the run directory relative to the root,
joined with `-`. -/
def expName (log_root log_dir : String) : String :=
  let path_name := stripSlash ((log_dir.splitOn log_root).getLastD "")
  String.intercalate "-" ((path_name.splitOn "/").take 2)

/-- `launch_rerun_vis` (`run_rerun_vis.py:215-242`): selects the run and its
round-robin device, sets the device-selection environment variables, prepares
the save directory and runs `log_to_rrd`. The dataset, input dictionary,
sources string and snapshot store of a given run directory are supplied by
the collaborator functions `dsOf`, `inputResOf`, `sourcesOf`, `envOf`. -/
def launch_rerun_vis (ext : Extern) (dsOf : String → MultiPeopleDataset)
    (inputResOf : String → PhaseResult) (sourcesOf : String → String)
    (envOf : String → String → PhaseStore) (i : Nat) (args : Args) :
    Except String (List Action) :=
  let log_dir := args.log_dirs.getD i ""
  let dev_id := args.gpus.getD (i % args.gpus.length) 0
  let save_dir :=
    match args.save_root with
    | some sr => sr ++ "/" ++ expName args.log_root log_dir
    | none => log_dir
  (log_to_rrd ext (dsOf log_dir) (inputResOf log_dir) (sourcesOf log_dir)
      log_dir save_dir (envOf log_dir) args.phases).map fun evs =>
    Action.setEnv "EGL_DEVICE_ID" (natStr dev_id) ::
      Action.setEnv "PYOPENGL_PLATFORM" "egl" ::
        Action.makedirs save_dir :: evs.map Action.emit

/-- How `main` executes the discovered runs (`run_rerun_vis.py:257-269`):
a process pool sized by the device count when more than one device is given,
otherwise an in-process sequential loop; either way one task per run index. -/
inductive ExecPlan where
  | pool (processes : Nat) (tasks : List Nat)
  | sequential (tasks : List Nat)
  deriving DecidableEq, Repr

/-- The execution-dispatch decision of `main`. -/
def mainPlan (args : Args) : ExecPlan :=
  if args.gpus.length > 1 then
    .pool args.gpus.length (List.range args.log_dirs.length)
  else
    .sequential (List.range args.log_dirs.length)

/-- `main`'s argument preparation: run discovery from the walk of
`args.log_root`. -/
def mainArgs (args : Args)
    (walk : List (String × List String × List String)) : Args :=
  { args with log_dirs := discoverLogDirs walk }

/-- The phase result `log_to_rerun`'s loop body hands to `log_phase_result`
for a given phase name, when it hands one at all: the input dictionary for
the synthetic `"input"` phase, the lexicographically last iteration's
`"world"` block for an existing phase directory, nothing for a missing one. -/
def resolvePhaseResult (inputRes : PhaseResult) (env : String → PhaseStore)
    (p : String) : Option PhaseResult :=
  if p = "input" then some inputRes
  else if (env p).isdir then (selectIteration (env p).keys).map (env p).world
  else none

/-- The events one phase contributes to a successful run: the logged phase
result when the phase resolves, the skip diagnostic when its directory is
missing. (The `none` iteration case cannot contribute to a successful run.) -/
def phaseEventsTotal (ext : Extern) (ds : MultiPeopleDataset)
    (inputRes : PhaseResult) (log_dir : String) (env : String → PhaseStore)
    (p : String) : List Event :=
  if p = "input" then log_phase_result ext ds p inputRes
  else if (env p).isdir then
    match selectIteration (env p).keys with
    | some it => log_phase_result ext ds p ((env p).world it)
    | none => []
  else [.printMsg (log_dir ++ "/" ++ p ++ " does not exist, skipping")]

/-- Selects the payload of a rigid-transform record on the shared
`world/camera` path with timeline key `f`. -/
def camPoseEntry (f : Nat) (e : Event) : Option (Vec3 × Quat) :=
  match e with
  | .rigid3 p f' t q =>
    if p = "world/camera" ∧ f' = f then some (t, q) else none
  | _ => none

/-- The camera pose a consumer of the recording sees at frame `f`: the last
rigid transform logged under the shared `world/camera` path with timeline
key `f` (later records at the same path and key replace earlier ones). -/
def visibleCameraPose (evs : List Event) (f : Nat) : Option (Vec3 × Quat) :=
  (evs.filterMap (camPoseEntry f)).getLast?

/-! ### Concrete instances used by witnesses and counterexamples -/

/-- A concrete external-collaborator bundle for witnesses. -/
def wExtern : Extern where
  matToQuat := fun _ => (0, 0, 0, 1)
  vertexNormals := fun v _ => v
  runSmpl := fun _ => ⟨fun _ _ => [(0, 0, 0)], [(0, 1, 2)]⟩

/-- A concrete phase result: the camera stream distinguishes the leading
batch index and the frame. -/
def wPhaseResult : PhaseResult where
  cam_t := fun b f => ((b : ℚ), (f : ℚ), 0)
  cam_R := fun _ _ => [[1, 0, 0], [0, 1, 0], [0, 0, 1]]
  poseParams := 0

/-- A concrete dataset with 2 tracks and 3 frames; track 0's visibility
codes over the frames are `[1, -1, 0]`, track 1 is always visible; all
keypoint confidences are zero. -/
def wDs : MultiPeopleDataset where
  track_ids := [3, 7]
  seq_len := 3
  vis_mask := fun i f =>
    if i = 0 then (if f = 1 then -1 else if f = 2 then 0 else 1) else 1
  joints2d := fun _ _ _ => (0, 0, 0)
  cam_t := fun f => ((f : ℚ), 0, 0)
  cam_R := fun _ => [[1, 0, 0], [0, 1, 0], [0, 0, 1]]
  intrins := fun _ => (1, 1, 0, 0)
  img_size := (4, 3)
  sel_img_paths := ["i0", "i1", "i2"]

/-- Keypoints whose confidence channel is exactly the threshold `0.3`. -/
def wJoints03 : Nat → ℚ × ℚ × ℚ := fun _ => (0, 0, 3 / 10)

/-- Keypoints whose confidence channel is `0.30001`. -/
def wJoints30001 : Nat → ℚ × ℚ × ℚ := fun _ => (0, 0, 30001 / 100000)

/-- A trivial concrete phase result. -/
def c3Res : PhaseResult := ⟨fun _ _ => (0, 0, 0), fun _ _ => [], 0⟩

/-- A concrete snapshot store with the key set of the spec's determinism
property. -/
def c3Store : PhaseStore := ⟨true, ["000010", "000050", "000005"], fun _ => c3Res⟩

/-- An environment in which every phase directory exists with `c3Store`. -/
def c3Env : String → PhaseStore := fun _ => c3Store

/-- A dataset with one track but no frames. -/
def c6Ds : MultiPeopleDataset := { wDs with seq_len := 0, sel_img_paths := [] }

/-- An environment in which exactly the phase `"nope"` is missing. -/
def c6Env : String → PhaseStore :=
  fun p => if p = "nope" then ⟨false, [], fun _ => c3Res⟩ else c3Store

/-- A dataset with no tracks at all. -/
def c7Ds : MultiPeopleDataset := { wDs with track_ids := [] }

/-- A dataset with no tracks and a single frame. -/
def c5Ds : MultiPeopleDataset :=
  { wDs with track_ids := [], seq_len := 1, sel_img_paths := ["i0"] }

/-- Phase result of phase `"alpha"`: camera translations start with 1. -/
def c5ResA : PhaseResult := ⟨fun b f => (1, (b : ℚ), (f : ℚ)), fun _ _ => [], 0⟩

/-- Phase result of phase `"beta"`: camera translations start with 2. -/
def c5ResB : PhaseResult := ⟨fun b f => (2, (b : ℚ), (f : ℚ)), fun _ _ => [], 0⟩

/-- Environment with two distinct resolvable phases. -/
def c5Env : String → PhaseStore := fun p =>
  if p = "alpha" then ⟨true, ["000010"], fun _ => c5ResA⟩
  else ⟨true, ["000020"], fun _ => c5ResB⟩

/-- A concrete `os.walk` output: only `runs/a` carries the `.hydra`
sentinel subdirectory. -/
def c9Walk : List (String × List String × List String) :=
  [("runs", ["a", "b"], []), ("runs/a", [".hydra"], ["cfg"]),
   ("runs/b", ["sub"], [])]

/-- Concrete launcher arguments over `c9Walk` with two devices. -/
def c9Args : Args :=
  { log_root := "runs", save_root := none, phases := [],
    gpus := [5, 9], log_dirs := discoverLogDirs c9Walk }

/-- External collaborators producing empty geometry. -/
def c4Extern : Extern where
  matToQuat := fun _ => (0, 0, 0, 1)
  vertexNormals := fun v _ => v
  runSmpl := fun _ => ⟨fun _ _ => [], []⟩

/-- A one-track, one-frame dataset with zero-confidence keypoints. -/
def c4Ds : MultiPeopleDataset where
  track_ids := [0]
  seq_len := 1
  vis_mask := fun _ _ => 1
  joints2d := fun _ _ _ => (0, 0, 0)
  cam_t := fun _ => (0, 0, 0)
  cam_R := fun _ => []
  intrins := fun _ => (1, 1, 0, 0)
  img_size := (4, 3)
  sel_img_paths := ["i0"]

/-- An environment with no phase directories. -/
def c4Env : String → PhaseStore := fun _ => ⟨false, [], fun _ => c3Res⟩

/-- Recognizes a skeleton-overlay event (segments or clear) of track `i`
tagged with timeline key `f`. -/
def isSkeletonOverlayAt (i f : Nat) (e : Event) : Bool :=
  match e with
  | .lineSegments p f' _ => decide (p = skelPath i ∧ f' = f)
  | .cleared p f' => decide (p = skelPath i ∧ f' = f)
  | _ => false

/-- Recognizes a camera pose (rigid-transform) event tagged with timeline
key `f`. -/
def isCameraPoseAt (f : Nat) (e : Event) : Bool :=
  match e with
  | .rigid3 p f' _ _ => decide (p = "world/camera" ∧ f' = f)
  | _ => false

/-- The event sequence `log_to_rerun` produces on `c4Ds` with no phases. -/
def c4Events : List Event :=
  [.viewCoords "world" "-Y",
   .imageFile "world/camera/image" 0 "i0",
   .cleared (skelPath 0) 0,
   .pinhole "world/camera/image" 0 [[1, 0, 0], [0, 1, 0], [0, 0, 1]] 4 3,
   .rigid3 "world/camera" 0 (0, 0, 0) (0, 0, 0, 1)]

/-! ### Lemmas and claim theorems -/

theorem toDigitsLE_lt_ten : ∀ n, ∀ d ∈ toDigitsLE n, d < 10 := by
  intro n
  induction n using Nat.strong_induction_on with
  | _ n ih =>
    rw [toDigitsLE]
    split
    · intro d hd; simp at hd
    · rename_i h
      intro d hd
      rcases List.mem_cons.mp hd with h1 | h1
      · subst h1; exact Nat.mod_lt _ (by decide)
      · exact ih (n / 10) (Nat.div_lt_self (Nat.pos_of_ne_zero h) (by decide)) d h1

theorem fromDigitsLE_toDigitsLE : ∀ n, fromDigitsLE (toDigitsLE n) = n := by
  intro n
  induction n using Nat.strong_induction_on with
  | _ n ih =>
    rw [toDigitsLE]
    split
    · rename_i h; simp [fromDigitsLE, h]
    · rename_i h
      rw [fromDigitsLE, ih (n / 10) (Nat.div_lt_self (Nat.pos_of_ne_zero h) (by decide))]
      exact Nat.mod_add_div n 10

theorem charToDigit_digitToChar {d : Nat} (h : d < 10) :
    charToDigit (digitToChar d) = d := by
  interval_cases d <;> rfl

theorem toDigitsLE_ne_nil {n : Nat} (h : n ≠ 0) : toDigitsLE n ≠ [] := by
  rw [toDigitsLE]; simp [h]

theorem strToNat_natStr : ∀ n, strToNat (natStr n) = n := by
  intro n
  by_cases h : n = 0
  · subst h; rfl
  · rw [natStr, if_neg h, strToNat]
    show fromDigitsLE ((((toDigitsLE n).reverse.map digitToChar).map charToDigit).reverse) = n
    rw [List.map_map]
    have hmap : List.map (charToDigit ∘ digitToChar) (toDigitsLE n).reverse =
        (toDigitsLE n).reverse :=
      (List.map_congr_left fun d hd => charToDigit_digitToChar
        (toDigitsLE_lt_ten n d (List.mem_reverse.mp hd))).trans
        (List.map_id _)
    rw [hmap, List.reverse_reverse]
    exact fromDigitsLE_toDigitsLE n

theorem natStr_injective : Function.Injective natStr :=
  Function.LeftInverse.injective strToNat_natStr

theorem str_append_cancel_left {a b c : String} (h : a ++ b = a ++ c) :
    b = c := by
  apply String.ext
  have hd := congrArg String.data h
  simp only [String.data_append] at hd
  exact List.append_cancel_left hd

theorem meshPath_inj {phase : String} {i j : Nat}
    (h : meshPath phase i = meshPath phase j) : i = j := by
  exact natStr_injective (str_append_cancel_left (a := "world/phase_" ++ phase ++ "/#") h)

theorem skelPath_inj {i j : Nat} (h : skelPath i = skelPath j) : i = j := by
  exact natStr_injective
    (str_append_cancel_left (a := "world/camera/image/skeleton/#") h)

theorem meshPath_ne_cam (phase : String) (i : Nat) :
    meshPath phase i ≠ "world/camera" := by
  intro h
  have hd := congrArg String.data h
  rw [meshPath] at hd
  simp only [String.data_append, List.append_assoc] at hd
  have h12 := congrArg (List.take 12) hd
  rw [show (12 : Nat) = ("world/phase_").data.length from rfl, List.take_left] at h12
  exact absurd h12 (by decide)

/-- Filtering distributes into `flatMap`. -/
theorem filter_flatMap {α β : Type} (l : List α) (g : α → List β)
    (p : β → Bool) :
    (l.flatMap g).filter p = l.flatMap fun x => (g x).filter p := by
  induction l with
  | nil => rfl
  | cons x xs ih => simp only [List.flatMap_cons, List.filter_append, ih]

/-- A `flatMap` over `List.range` in which only one index contributes. -/
theorem flatMap_range_single {α : Type} (g : Nat → List α) {f T : Nat}
    (hf : f < T) (h : ∀ f' < T, f' ≠ f → g f' = []) :
    (List.range T).flatMap g = g f := by
  induction T with
  | zero => omega
  | succ T ih =>
    rw [List.range_succ, List.flatMap_append, List.flatMap_cons,
      List.flatMap_nil, List.append_nil]
    by_cases hfT : f = T
    · have hnil : (List.range T).flatMap g = [] := by
        rw [List.flatMap_eq_nil_iff]
        intro x hx
        rw [List.mem_range] at hx
        exact h x (by omega) (by omega)
      rw [hnil, List.nil_append, hfT]
    · rw [ih (by omega) (fun f' h1 h2 => h f' (by omega) h2),
        h T (by omega) (fun hh => hfT hh.symm), List.append_nil]

/-- A filter over `List.range` whose predicate holds only at one index. -/
theorem filter_range_single {p : Nat → Bool} {i n : Nat} (hi : i < n)
    (hp : ∀ j, p j = true ↔ j = i) :
    (List.range n).filter p = [i] := by
  induction n with
  | zero => omega
  | succ n ih =>
    rw [List.range_succ, List.filter_append]
    by_cases hin : i = n
    · have hnil : (List.range n).filter p = [] := by
        rw [List.filter_eq_nil_iff]
        intro a ha
        rw [List.mem_range] at ha
        intro hpa
        have := (hp a).mp hpa
        omega
      rw [hnil, List.nil_append]
      have hpn : p n = true := (hp n).mpr hin.symm
      simp [List.filter, hpn, hin]
    · have hpn : p n = false := by
        rcases Bool.eq_false_or_eq_true (p n) with hb | hb
        · exact absurd ((hp n).mp hb) (fun hh => hin hh.symm)
        · exact hb
      rw [ih (by omega)]
      simp [List.filter, hpn]

theorem phaseTrackEvent_timelineKey (ext : Extern) (ds : MultiPeopleDataset)
    (phase : String) (smpl : SmplOutput) (j f' : Nat) :
    (phaseTrackEvent ext ds phase smpl j f').timelineKey = some f' := by
  unfold phaseTrackEvent; split <;> rfl

theorem phaseTrackEvent_entityPath (ext : Extern) (ds : MultiPeopleDataset)
    (phase : String) (smpl : SmplOutput) (j f' : Nat) :
    (phaseTrackEvent ext ds phase smpl j f').entityPath =
      some (meshPath phase j) := by
  unfold phaseTrackEvent; split <;> rfl

/-- **C1.** In `log_phase_result`, for every track position `i` and frame `f`,
exactly one event is emitted at entity path `world/phase_<phase>/#i` with
timeline key `f`: a mesh geometry event when `vis_mask[i][f] >= 0` and an
explicit clear event when `vis_mask[i][f] < 0`. Occluded (code 0) and visible
(code 1) tracks are rendered identically — the emitted mesh does not depend on
the particular nonnegative code — and a negative code always yields the clear
event, never a geometry event. -/
theorem C1_mesh_visibility_gate (ext : Extern) (ds : MultiPeopleDataset)
    (phase : String) (pr : PhaseResult) {i f : Nat}
    (hi : i < ds.track_ids.length) (hf : f < ds.seq_len) :
    eventsAt (meshPath phase i) f (log_phase_result ext ds phase pr) =
      if ds.vis_mask i f ≥ 0 then
        [Event.mesh (meshPath phase i) f ((ext.runSmpl pr).vertices i f)
          (ext.runSmpl pr).faces
          (ext.vertexNormals ((ext.runSmpl pr).vertices i f)
            (ext.runSmpl pr).faces)]
      else [Event.cleared (meshPath phase i) f] := by
  unfold eventsAt log_phase_result
  rw [filter_flatMap]
  have hblock : ∀ f' < ds.seq_len, f' ≠ f →
      List.filter (fun e => decide (e.entityPath = some (meshPath phase i) ∧
          e.timelineKey = some f))
        (phaseCamEvent ext pr f' :: (List.range ds.track_ids.length).map
          fun j => phaseTrackEvent ext ds phase (ext.runSmpl pr) j f') = [] := by
    intro f' _ hne
    rw [List.filter_eq_nil_iff]
    intro e he
    rcases List.mem_cons.mp he with rfl | he
    · simp [phaseCamEvent, Event.timelineKey, hne]
    · obtain ⟨j, _, rfl⟩ := List.mem_map.mp he
      simp [phaseTrackEvent_timelineKey, hne]
  rw [flatMap_range_single _ hf hblock]
  rw [List.filter_cons_of_neg (by
    simp [phaseCamEvent, Event.entityPath]
    intro hcam _
    exact meshPath_ne_cam phase i hcam.symm)]
  rw [List.filter_map]
  rw [filter_range_single hi (fun j => by
    simp only [Function.comp_apply, phaseTrackEvent_entityPath,
      phaseTrackEvent_timelineKey, decide_eq_true_eq, Option.some.injEq,
      and_true]
    exact ⟨fun hj => meshPath_inj hj, fun hj => by rw [hj]⟩)]
  simp only [List.map_cons, List.map_nil]
  unfold phaseTrackEvent
  split <;> rfl

theorem C1_mesh_visibility_gate_witness :
    eventsAt (meshPath "motion_chunks" 0) 1
      (log_phase_result wExtern wDs "motion_chunks" wPhaseResult) =
      [Event.cleared (meshPath "motion_chunks" 0) 1] := by
  have h := C1_mesh_visibility_gate wExtern wDs "motion_chunks" wPhaseResult
    (i := 0) (f := 1) (by decide) (by decide)
  rw [h]
  norm_num [wDs]

/-- **C2.** In the skeleton extractor, after remapping the raw joints through
the permutation table `idcs` and forming candidate segments from the edge
table `skeleton_ids`, each segment's confidence is the minimum of its two
remapped endpoint confidences, and a segment is kept if and only if that
minimum is strictly greater than `0.3`; a segment whose minimum endpoint
confidence is exactly `0.3` is excluded. -/
theorem C2_skeleton_confidence_filter (frame_joints : Nat → ℚ × ℚ × ℚ)
    (e : Nat × Nat) :
    (segConfidence frame_joints e =
      min (remappedJoint frame_joints e.1).2.2
        (remappedJoint frame_joints e.2).2.2) ∧
    (e ∈ goodSegments frame_joints ↔
      e ∈ skeleton_ids ∧ segConfidence frame_joints e > 3 / 10) ∧
    (segConfidence frame_joints e = 3 / 10 →
      e ∉ goodSegments frame_joints) := by
  refine ⟨rfl, ?_, ?_⟩
  · rw [goodSegments, List.mem_filter]
    simp
  · intro h hmem
    rw [goodSegments, List.mem_filter] at hmem
    rw [h] at hmem
    simp at hmem

theorem C2_skeleton_confidence_filter_witness :
    ((15, 13) ∉ goodSegments wJoints03 ∧
      segConfidence wJoints03 (15, 13) = 3 / 10) ∧
    (15, 13) ∈ goodSegments wJoints30001 := by
  have h := C2_skeleton_confidence_filter wJoints03 (15, 13)
  have h' := C2_skeleton_confidence_filter wJoints30001 (15, 13)
  have hconf : segConfidence wJoints03 (15, 13) = 3 / 10 := by
    rw [h.1]; simp [wJoints03, remappedJoint]
  refine ⟨⟨h.2.2 hconf, hconf⟩, h'.2.1.mpr ⟨by decide, ?_⟩⟩
  rw [h'.1]
  norm_num [wJoints30001, remappedJoint]

theorem skeletonFrameEvent_entityPath (ds : MultiPeopleDataset) (i f' : Nat) :
    (skeletonFrameEvent ds i f').entityPath = some (skelPath i) := by
  simp only [skeletonFrameEvent]
  split <;> rfl

theorem skeletonFrameEvent_timelineKey (ds : MultiPeopleDataset) (i f' : Nat) :
    (skeletonFrameEvent ds i f').timelineKey = some f' := by
  simp only [skeletonFrameEvent]
  split <;> rfl

theorem goodJointsXY_eq_nil (fj : Nat → ℚ × ℚ × ℚ) :
    goodJointsXY fj = [] ↔ goodSegments fj = [] := by
  rw [goodJointsXY, List.flatMap_eq_nil_iff]
  constructor
  · intro h
    cases hgs : goodSegments fj with
    | nil => rfl
    | cons x xs =>
      exact absurd (h x (by rw [hgs]; exact List.mem_cons_self x xs)) (by simp)
  · intro h
    rw [h]
    intro x hx
    simp at hx

/-- **C8.** For every track position `i` and frame `f`, `log_skeleton_2d`
emits exactly one event for that track's skeleton overlay at that frame: when
no segment survives the confidence filter it is a single explicit clear event
(and zero segment events), and when at least one segment survives it is a
single event carrying the surviving segments as one flat list of 2D
endpoints. In particular a track whose segments never pass the filter gets
one clear event for every frame rather than being skipped. -/
theorem C8_skeleton_empty_clear (ds : MultiPeopleDataset) {i f : Nat}
    (hi : i < ds.track_ids.length) (hf : f < ds.seq_len) :
    eventsAt (skelPath i) f (log_skeleton_2d ds) =
      if goodSegments (ds.joints2d i f) = [] then
        [Event.cleared (skelPath i) f]
      else
        [Event.lineSegments (skelPath i) f (goodJointsXY (ds.joints2d i f))] := by
  unfold eventsAt log_skeleton_2d
  rw [filter_flatMap]
  have htrack : ∀ j < ds.track_ids.length, j ≠ i →
      List.filter (fun e => decide (e.entityPath = some (skelPath i) ∧
          e.timelineKey = some f))
        ((List.range ds.seq_len).map fun f' => skeletonFrameEvent ds j f') = [] := by
    intro j _ hne
    rw [List.filter_eq_nil_iff]
    intro e he
    obtain ⟨f', _, rfl⟩ := List.mem_map.mp he
    simp only [skeletonFrameEvent_entityPath, skeletonFrameEvent_timelineKey,
      decide_eq_true_eq, Option.some.injEq, not_and]
    intro hpath
    exact absurd (skelPath_inj hpath) hne
  rw [flatMap_range_single _ hi htrack]
  rw [List.filter_map]
  rw [filter_range_single hf (fun f' => by
    simp [Function.comp_apply, skeletonFrameEvent_entityPath,
      skeletonFrameEvent_timelineKey])]
  simp only [List.map_cons, List.map_nil]
  simp only [skeletonFrameEvent]
  by_cases hempty : goodSegments (ds.joints2d i f) = []
  · rw [if_pos hempty]
    have : goodJointsXY (ds.joints2d i f) = [] :=
      (goodJointsXY_eq_nil _).mpr hempty
    simp [this]
  · rw [if_neg hempty]
    have : goodJointsXY (ds.joints2d i f) ≠ [] := by
      intro hh
      exact hempty ((goodJointsXY_eq_nil _).mp hh)
    simp [List.length_eq_zero, this]

theorem C8_skeleton_empty_clear_witness :
    eventsAt (skelPath 1) 2 (log_skeleton_2d wDs) =
      [Event.cleared (skelPath 1) 2] := by
  have h := C8_skeleton_empty_clear wDs (i := 1) (f := 2) (by decide) (by decide)
  rw [h]
  norm_num [goodSegments, skeleton_ids, segConfidence, segEndpoints,
    remappedJoint, wDs, List.filter]

theorem charListLe_refl : ∀ as, charListLe as as = true := by
  intro as
  induction as with
  | nil => rfl
  | cons a as ih => simp [charListLe, ih]

theorem charListLe_total : ∀ as bs,
    charListLe as bs = true ∨ charListLe bs as = true := by
  intro as
  induction as with
  | nil => intro bs; left; rfl
  | cons a as ih =>
    intro bs
    cases bs with
    | nil => right; rfl
    | cons b bs =>
      by_cases h1 : a.toNat < b.toNat
      · left; simp [charListLe, h1]
      · by_cases h2 : b.toNat < a.toNat
        · right; simp [charListLe, h2]
        · rcases ih bs with h | h
          · left; simp [charListLe, h1, h2, h]
          · right; simp [charListLe, h1, h2, h]

theorem charListLe_trans : ∀ as bs cs, charListLe as bs = true →
    charListLe bs cs = true → charListLe as cs = true := by
  intro as
  induction as with
  | nil => intro bs cs _ _; rfl
  | cons a as ih =>
    intro bs cs h1 h2
    cases bs with
    | nil => exact absurd h1 (by simp [charListLe])
    | cons b bs =>
      cases cs with
      | nil => exact absurd h2 (by simp [charListLe])
      | cons c cs =>
        simp only [charListLe] at h1 h2 ⊢
        by_cases hac : a.toNat < c.toNat
        · simp [hac]
        · by_cases hab : a.toNat < b.toNat
          · by_cases hbc : b.toNat < c.toNat
            · exact absurd (by omega : a.toNat < c.toNat) hac
            · have hcb : c.toNat < b.toNat := by omega
              rw [if_neg hbc, if_pos hcb] at h2
              simp at h2
          · rw [if_neg hab] at h1
            by_cases hba : b.toNat < a.toNat
            · rw [if_pos hba] at h1
              simp at h1
            · rw [if_neg hba] at h1
              by_cases hbc : b.toNat < c.toNat
              · exact absurd (by omega : a.toNat < c.toNat) hac
              · rw [if_neg hbc] at h2
                by_cases hcb : c.toNat < b.toNat
                · rw [if_pos hcb] at h2
                  simp at h2
                · rw [if_neg hcb] at h2
                  have hca : ¬ c.toNat < a.toNat := by omega
                  rw [if_neg hac, if_neg hca]
                  exact ih bs cs h1 h2

theorem strLe_total (a b : String) : strLe a b = true ∨ strLe b a = true :=
  charListLe_total a.data b.data

theorem strLe_trans {a b c : String} (h1 : strLe a b = true)
    (h2 : strLe b c = true) : strLe a c = true :=
  charListLe_trans a.data b.data c.data h1 h2

theorem mem_insertSorted {x a : String} : ∀ l : List String,
    a ∈ insertSorted x l ↔ a = x ∨ a ∈ l := by
  intro l
  induction l with
  | nil => simp [insertSorted]
  | cons y ys ih =>
    simp only [insertSorted]
    split
    · simp [List.mem_cons]
    · rw [List.mem_cons, ih, List.mem_cons]
      tauto

theorem pairwise_insertSorted {x : String} : ∀ l : List String,
    List.Pairwise (fun a b => strLe a b = true) l →
    List.Pairwise (fun a b => strLe a b = true) (insertSorted x l) := by
  intro l
  induction l with
  | nil => intro _; exact List.pairwise_singleton _ _
  | cons y ys ih =>
    intro hp
    rw [List.pairwise_cons] at hp
    obtain ⟨hy, hys⟩ := hp
    simp only [insertSorted]
    split
    · rename_i hxy
      rw [List.pairwise_cons]
      refine ⟨?_, List.pairwise_cons.mpr ⟨hy, hys⟩⟩
      intro b hb
      rcases List.mem_cons.mp hb with rfl | hb
      · exact hxy
      · exact strLe_trans hxy (hy b hb)
    · rename_i hxy
      rw [List.pairwise_cons]
      refine ⟨?_, ih hys⟩
      intro b hb
      rcases (mem_insertSorted ys).mp hb with rfl | hb
      · rcases strLe_total y b with h | h
        · exact h
        · exact absurd h hxy
      · exact hy b hb

theorem pairwise_pySorted (l : List String) :
    List.Pairwise (fun a b => strLe a b = true) (pySorted l) := by
  induction l with
  | nil => exact List.Pairwise.nil
  | cons x xs ih => exact pairwise_insertSorted _ ih

theorem mem_pySorted {a : String} : ∀ l : List String,
    a ∈ pySorted l ↔ a ∈ l := by
  intro l
  induction l with
  | nil => exact Iff.rfl
  | cons x xs ih =>
    show a ∈ insertSorted x (pySorted xs) ↔ _
    rw [mem_insertSorted, ih, List.mem_cons]

theorem pairwise_getLast?_max {m : String} : ∀ l : List String,
    List.Pairwise (fun a b => strLe a b = true) l → l.getLast? = some m →
    ∀ a ∈ l, strLe a m = true := by
  intro l
  induction l with
  | nil => intro _ h; simp at h
  | cons x xs ih =>
    intro hp hl a ha
    cases xs with
    | nil =>
      simp only [List.getLast?_singleton, Option.some.injEq] at hl
      rcases List.mem_singleton.mp ha with rfl
      rw [hl]
      exact charListLe_refl _
    | cons y ys =>
      rw [List.getLast?_cons_cons] at hl
      rw [List.pairwise_cons] at hp
      rcases List.mem_cons.mp ha with rfl | ha
      · obtain ⟨hne, heq⟩ := List.mem_getLast?_eq_getLast hl
        exact hp.1 m (heq ▸ List.getLast_mem hne)
      · exact ih hp.2 hl a ha

/-- The key `selectIteration` picks on a nonempty key list is the
lexicographic maximum of the keys. -/
theorem selectIteration_max {keys : List String} (h : keys ≠ []) :
    ∃ m, selectIteration keys = some m ∧ m ∈ keys ∧
      ∀ k ∈ keys, strLe k m = true := by
  cases hsel : selectIteration keys with
  | none =>
    rw [selectIteration, List.getLast?_eq_none_iff] at hsel
    obtain ⟨a, ha⟩ := List.exists_mem_of_ne_nil keys h
    exact absurd ((mem_pySorted keys).mpr ha) (by rw [hsel]; simp)
  | some m =>
    refine ⟨m, rfl, ?_, ?_⟩
    · rw [selectIteration] at hsel
      obtain ⟨hne, heq⟩ := List.mem_getLast?_eq_getLast hsel
      exact (mem_pySorted keys).mp (heq ▸ List.getLast_mem hne)
    · intro k hk
      exact pairwise_getLast?_max (pySorted keys) (pairwise_pySorted keys)
        hsel k ((mem_pySorted keys).mpr hk)

/-- **C3.** For a phase name other than `"input"` whose directory exists, the
phase loop enumerates the snapshot keys, selects the lexicographically last
one, and logs that snapshot's `"world"` result block. -/
theorem C3_phase_resolution (ext : Extern) (ds : MultiPeopleDataset)
    (inputRes : PhaseResult) (log_dir : String) (env : String → PhaseStore)
    (phase : String) (hphase : phase ≠ "input")
    (hdir : (env phase).isdir = true) (hkeys : (env phase).keys ≠ []) :
    ∃ m, selectIteration (env phase).keys = some m ∧ m ∈ (env phase).keys ∧
      (∀ k ∈ (env phase).keys, strLe k m = true) ∧
      runPhases ext ds inputRes log_dir env [phase] =
        .ok (log_phase_result ext ds phase ((env phase).world m)) := by
  obtain ⟨m, hsel, hmem, hmax⟩ := selectIteration_max hkeys
  refine ⟨m, hsel, hmem, hmax, ?_⟩
  rw [runPhases, if_neg hphase, if_pos hdir, hsel]
  rw [runPhases]
  simp [Except.map]

theorem C3_phase_resolution_witness :
    selectIteration ["000010", "000050", "000005"] = some "000050" ∧
    runPhases wExtern wDs c3Res "logs" c3Env ["motion_chunks"] =
      .ok (log_phase_result wExtern wDs "motion_chunks"
        (c3Store.world "000050")) := by
  obtain ⟨m, hsel, hmem, hmax, hrun⟩ := C3_phase_resolution wExtern wDs c3Res
    "logs" c3Env "motion_chunks" (by decide) rfl (by decide)
  have h0 : selectIteration (c3Env "motion_chunks").keys = some "000050" := rfl
  have hm : m = "000050" := (Option.some.inj (h0.symm.trans hsel)).symm
  rw [hm] at hsel hrun
  exact ⟨hsel, hrun⟩

/-- **C7.** When the dataset of a run has no tracks, `log_to_rrd` prints a
diagnostic and returns: the result is exactly the three diagnostic prints,
so no entity is logged and no recording file is saved, and no exception is
raised. -/
theorem C7_empty_dataset_skip (ext : Extern) (ds : MultiPeopleDataset)
    (inputRes : PhaseResult) (sources log_dir save_dir : String)
    (env : String → PhaseStore) (phases : List String)
    (h : ds.track_ids.length < 1) :
    log_to_rrd ext ds inputRes sources log_dir save_dir env phases =
      .ok [Event.printMsg log_dir, Event.printMsg ("SOURCES " ++ sources),
        Event.printMsg "No tracks in dataset, skipping"] ∧
    ∀ evs, log_to_rrd ext ds inputRes sources log_dir save_dir env phases =
        .ok evs →
      (∀ e ∈ evs, e.entityPath = none) ∧ ∀ p : String, Event.save p ∉ evs := by
  have hmain : log_to_rrd ext ds inputRes sources log_dir save_dir env phases =
      .ok [Event.printMsg log_dir, Event.printMsg ("SOURCES " ++ sources),
        Event.printMsg "No tracks in dataset, skipping"] := by
    simp only [log_to_rrd, if_pos h]
    rfl
  refine ⟨hmain, ?_⟩
  intro evs hevs
  rw [hmain] at hevs
  obtain rfl : _ = evs := Except.ok.inj hevs
  constructor
  · intro e he
    rcases List.mem_cons.mp he with rfl | he
    · rfl
    · rcases List.mem_cons.mp he with rfl | he
      · rfl
      · rcases List.mem_cons.mp he with rfl | he
        · rfl
        · simp at he
  · intro p hp
    simp [List.mem_cons] at hp

theorem C7_empty_dataset_skip_witness :
    log_to_rrd wExtern c7Ds c3Res "src" "logs" "save" c3Env
        ["motion_chunks"] =
      .ok [Event.printMsg "logs", Event.printMsg ("SOURCES " ++ "src"),
        Event.printMsg "No tracks in dataset, skipping"] :=
  (C7_empty_dataset_skip wExtern c7Ds c3Res "src" "logs" "save" c3Env
    ["motion_chunks"] (by decide)).1

/-- When every existing phase directory has a nonempty key set, the phase
loop succeeds and contributes exactly each phase's events in order. -/
theorem runPhases_total (ext : Extern) (ds : MultiPeopleDataset)
    (inputRes : PhaseResult) (log_dir : String) (env : String → PhaseStore) :
    ∀ phases : List String,
    (∀ p ∈ phases, p ≠ "input" → (env p).isdir = true → (env p).keys ≠ []) →
    runPhases ext ds inputRes log_dir env phases =
      .ok (phases.flatMap (phaseEventsTotal ext ds inputRes log_dir env)) := by
  intro phases
  induction phases with
  | nil => intro _; rfl
  | cons p rest ih =>
    intro hc
    have hrest := ih fun q hq => hc q (List.mem_cons_of_mem p hq)
    rw [runPhases, List.flatMap_cons]
    by_cases hp : p = "input"
    · rw [if_pos hp, hrest]
      simp [Except.map, phaseEventsTotal, hp]
    · rw [if_neg hp]
      by_cases hdir : (env p).isdir = true
      · rw [if_pos hdir]
        obtain ⟨m, hsel, _, _⟩ :=
          selectIteration_max (hc p (List.mem_cons_self p rest) hp hdir)
        rw [hsel, hrest]
        simp [Except.map, phaseEventsTotal, hp, hdir, hsel]
      · rw [if_neg hdir, hrest]
        simp [Except.map, phaseEventsTotal, hp, hdir]

/-- **C6.** When every phase whose directory exists is loadable, a run with at
least one track succeeds end to end even if some requested phases' directories
are missing: the result is `.ok` (no exception), it contains the events of
every phase in request order (`phaseEventsTotal`), it ends with the `save` of
the recording, and each missing phase contributes exactly its printed skip
diagnostic. -/
theorem C6_missing_phase_skip (ext : Extern) (ds : MultiPeopleDataset)
    (inputRes : PhaseResult) (sources log_dir save_dir : String)
    (env : String → PhaseStore) (phases : List String)
    (htr : 1 ≤ ds.track_ids.length)
    (hc : ∀ p ∈ phases, p ≠ "input" → (env p).isdir = true →
      (env p).keys ≠ []) :
    log_to_rrd ext ds inputRes sources log_dir save_dir env phases =
      .ok ([Event.printMsg log_dir, Event.printMsg ("SOURCES " ++ sources)] ++
        (Event.viewCoords "world" "-Y" ::
          (log_input_frames ds ++ log_skeleton_2d ds ++ log_camera ext ds ++
            phases.flatMap (phaseEventsTotal ext ds inputRes log_dir env))) ++
        [Event.save (save_dir ++ "/log.rrd")]) ∧
    ∀ p ∈ phases, p ≠ "input" → (env p).isdir = false →
      ∃ evs, log_to_rrd ext ds inputRes sources log_dir save_dir env phases =
          .ok evs ∧
        Event.printMsg (log_dir ++ "/" ++ p ++ " does not exist, skipping")
          ∈ evs := by
  have hmain : log_to_rrd ext ds inputRes sources log_dir save_dir env phases =
      .ok ([Event.printMsg log_dir, Event.printMsg ("SOURCES " ++ sources)] ++
        (Event.viewCoords "world" "-Y" ::
          (log_input_frames ds ++ log_skeleton_2d ds ++ log_camera ext ds ++
            phases.flatMap (phaseEventsTotal ext ds inputRes log_dir env))) ++
        [Event.save (save_dir ++ "/log.rrd")]) := by
    simp only [log_to_rrd, if_neg (by omega : ¬ ds.track_ids.length < 1)]
    rw [log_to_rerun, runPhases_total ext ds inputRes log_dir env phases hc]
    rfl
  refine ⟨hmain, ?_⟩
  intro p hp hpin hdir
  refine ⟨_, hmain, ?_⟩
  have hmem : Event.printMsg (log_dir ++ "/" ++ p ++ " does not exist, skipping")
      ∈ phases.flatMap (phaseEventsTotal ext ds inputRes log_dir env) := by
    rw [List.mem_flatMap]
    refine ⟨p, hp, ?_⟩
    rw [phaseEventsTotal, if_neg hpin, if_neg (by simp [hdir])]
    exact List.mem_singleton.mpr rfl
  simp only [List.mem_append, List.mem_cons]
  tauto

theorem C6_missing_phase_skip_witness :
    ∃ evs, log_to_rrd wExtern c6Ds c3Res "src" "logs" "save" c6Env
        ["motion_chunks", "nope"] = .ok evs ∧
      Event.printMsg ("logs" ++ "/" ++ "nope" ++ " does not exist, skipping")
        ∈ evs := by
  have h := C6_missing_phase_skip wExtern c6Ds c3Res "src" "logs" "save" c6Env
    ["motion_chunks", "nope"] (by decide)
    (by
      intro p hp h1 h2
      rcases List.mem_cons.mp hp with rfl | hp
      · exact (by decide : (c6Env "motion_chunks").keys ≠ [])
      · rcases List.mem_cons.mp hp with rfl | hp
        · exact absurd h2 (by decide)
        · simp at hp)
  exact h.2 "nope" (by decide) (by decide) rfl

/-- **C10.** Every rigid-transform event of `log_phase_result` carries the
phase result's camera pose at the fixed leading index 1 and the frame — never
the entry at leading index 0 — and one such event is present for every frame;
the defining-camera logger `log_camera`, in contrast, indexes its camera
arrays by the frame alone. -/
theorem C10_phase_camera_leading_index (ext : Extern)
    (ds : MultiPeopleDataset) (phase : String) (pr : PhaseResult) :
    (∀ e ∈ log_phase_result ext ds phase pr, ∀ p f t q,
        e = Event.rigid3 p f t q →
        t = pr.cam_t 1 f ∧ q = ext.matToQuat (pr.cam_R 1 f)) ∧
    (∀ f < ds.seq_len,
        phaseCamEvent ext pr f ∈ log_phase_result ext ds phase pr) ∧
    (∀ e ∈ log_camera ext ds, ∀ p f t q, e = Event.rigid3 p f t q →
        t = ds.cam_t f ∧ q = ext.matToQuat (ds.cam_R f)) := by
  refine ⟨?_, ?_, ?_⟩
  · intro e he p f t q heq
    subst heq
    unfold log_phase_result at he
    rw [List.mem_flatMap] at he
    obtain ⟨f', _, he⟩ := he
    rcases List.mem_cons.mp he with hcam | he
    · rw [phaseCamEvent] at hcam
      obtain ⟨_, rfl, rfl, rfl⟩ := Event.rigid3.inj hcam
      exact ⟨rfl, rfl⟩
    · obtain ⟨j, _, hj⟩ := List.mem_map.mp he
      rw [phaseTrackEvent] at hj
      split at hj <;> simp at hj
  · intro f hf
    unfold log_phase_result
    rw [List.mem_flatMap]
    exact ⟨f, List.mem_range.mpr hf, List.mem_cons_self _ _⟩
  · intro e he p f t q heq
    subst heq
    unfold log_camera at he
    rw [List.mem_flatMap] at he
    obtain ⟨f', _, he⟩ := he
    rcases List.mem_cons.mp he with hpin | he
    · simp at hpin
    · rcases List.mem_cons.mp he with hcam | he
      · obtain ⟨_, rfl, rfl, rfl⟩ := Event.rigid3.inj hcam
        exact ⟨rfl, rfl⟩
      · simp at he

theorem C10_phase_camera_leading_index_witness :
    phaseCamEvent wExtern wPhaseResult 0 ∈
      log_phase_result wExtern wDs "motion_chunks" wPhaseResult ∧
    phaseCamEvent wExtern wPhaseResult 0 =
      Event.rigid3 "world/camera" 0 (1, 0, 0) (0, 0, 0, 1) ∧
    wPhaseResult.cam_t 0 0 = (0, 0, 0) := by
  refine ⟨(C10_phase_camera_leading_index wExtern wDs "motion_chunks"
    wPhaseResult).2.1 0 (by decide), ?_, ?_⟩
  · simp [phaseCamEvent, wPhaseResult, wExtern]
  · simp [wPhaseResult]

/-- `filterMap` distributes into `flatMap`. -/
theorem filterMap_flatMap {α β γ : Type} (l : List α) (g : α → List β)
    (h : β → Option γ) :
    (l.flatMap g).filterMap h = l.flatMap fun x => (g x).filterMap h := by
  induction l with
  | nil => rfl
  | cons x xs ih => simp only [List.flatMap_cons, List.filterMap_append, ih]

theorem camPoseEntry_phaseTrackEvent (ext : Extern) (ds : MultiPeopleDataset)
    (phase : String) (smpl : SmplOutput) (j f' f : Nat) :
    camPoseEntry f (phaseTrackEvent ext ds phase smpl j f') = none := by
  rw [phaseTrackEvent]
  split <;> rfl

/-- The camera-pose records of one phase's logging at frame `f`: exactly the
phase camera pose of that frame. -/
theorem filterMap_camPose_phase (ext : Extern) (ds : MultiPeopleDataset)
    (phase : String) (pr : PhaseResult) {f : Nat} (hf : f < ds.seq_len) :
    (log_phase_result ext ds phase pr).filterMap (camPoseEntry f) =
      [(pr.cam_t 1 f, ext.matToQuat (pr.cam_R 1 f))] := by
  unfold log_phase_result
  rw [filterMap_flatMap]
  have hside : ∀ f' < ds.seq_len, f' ≠ f →
      List.filterMap (camPoseEntry f)
        (phaseCamEvent ext pr f' :: (List.range ds.track_ids.length).map
          fun j => phaseTrackEvent ext ds phase (ext.runSmpl pr) j f') = [] := by
    intro f' _ hne
    have h1 : camPoseEntry f (phaseCamEvent ext pr f') = none := by
      simp [camPoseEntry, phaseCamEvent, hne]
    simp only [List.filterMap_cons, h1, List.filterMap_map]
    rw [List.filterMap_eq_nil_iff]
    intro j _
    exact camPoseEntry_phaseTrackEvent ext ds phase (ext.runSmpl pr) j f' f
  rw [flatMap_range_single _ hf hside]
  have h1 : camPoseEntry f (phaseCamEvent ext pr f) =
      some (pr.cam_t 1 f, ext.matToQuat (pr.cam_R 1 f)) := by
    simp [camPoseEntry, phaseCamEvent]
  simp only [List.filterMap_cons, h1, List.filterMap_map]
  have h2 : List.filterMap (camPoseEntry f ∘ fun j =>
      phaseTrackEvent ext ds phase (ext.runSmpl pr) j f)
      (List.range ds.track_ids.length) = [] := by
    rw [List.filterMap_eq_nil_iff]
    intro j _
    exact camPoseEntry_phaseTrackEvent ext ds phase (ext.runSmpl pr) j f f
  rw [h2]

theorem skeletonFrameEvent_ne_rigid3 (ds : MultiPeopleDataset) (i f' : Nat)
    (p : String) (f : Nat) (t : Vec3) (q : Quat) :
    skeletonFrameEvent ds i f' ≠ Event.rigid3 p f t q := by
  simp only [skeletonFrameEvent]
  split <;> simp

theorem rigid3_path_log_phase_result (ext : Extern) (ds : MultiPeopleDataset)
    (phase : String) (pr : PhaseResult) :
    ∀ e ∈ log_phase_result ext ds phase pr, ∀ p f t q,
      e = Event.rigid3 p f t q → p = "world/camera" := by
  intro e he p f t q heq
  subst heq
  unfold log_phase_result at he
  rw [List.mem_flatMap] at he
  obtain ⟨f', _, he⟩ := he
  rcases List.mem_cons.mp he with hcam | he
  · rw [phaseCamEvent] at hcam
    exact (Event.rigid3.inj hcam).1
  · obtain ⟨j, _, hj⟩ := List.mem_map.mp he
    rw [phaseTrackEvent] at hj
    split at hj <;> simp at hj

theorem rigid3_path_phaseEventsTotal (ext : Extern) (ds : MultiPeopleDataset)
    (inputRes : PhaseResult) (log_dir : String) (env : String → PhaseStore)
    (p' : String) :
    ∀ e ∈ phaseEventsTotal ext ds inputRes log_dir env p', ∀ p f t q,
      e = Event.rigid3 p f t q → p = "world/camera" := by
  intro e he p f t q heq
  rw [phaseEventsTotal] at he
  split_ifs at he with h1 h2
  · exact rigid3_path_log_phase_result ext ds p' inputRes e he p f t q heq
  · rcases hsel : selectIteration (env p').keys with _ | m
    · rw [hsel] at he
      simp at he
    · rw [hsel] at he
      exact rigid3_path_log_phase_result ext ds p' ((env p').world m)
        e he p f t q heq
  · subst heq
    simp at he

/-- **C5.** Every camera rigid-transform event of a run — from the defining
camera logger and from every processed phase — is logged under the single
shared entity path `world/camera`, never under a phase-scoped subtree;
consequently, when the last requested phase resolves to a result, the camera
pose visible at any frame of the final recording is the one logged by that
last-processed phase. -/
theorem C5_shared_camera_path (ext : Extern) (ds : MultiPeopleDataset)
    (inputRes : PhaseResult) (log_dir : String) (env : String → PhaseStore)
    (phases : List String)
    (hc : ∀ p ∈ phases, p ≠ "input" → (env p).isdir = true →
      (env p).keys ≠ []) {evs : List Event}
    (hrun : log_to_rerun ext ds inputRes log_dir env phases = .ok evs) :
    (∀ e ∈ evs, ∀ p f t q, e = Event.rigid3 p f t q → p = "world/camera") ∧
    ∀ pLast resLast, phases.getLast? = some pLast →
      resolvePhaseResult inputRes env pLast = some resLast →
      ∀ f < ds.seq_len,
        visibleCameraPose evs f =
          some (resLast.cam_t 1 f, ext.matToQuat (resLast.cam_R 1 f)) := by
  rw [log_to_rerun, runPhases_total ext ds inputRes log_dir env phases hc]
    at hrun
  obtain rfl : _ = evs := Except.ok.inj hrun
  constructor
  · intro e he p f t q heq
    rcases List.mem_cons.mp he with rfl | he
    · simp at heq
    · rw [List.mem_append] at he
      rcases he with he | he
      · rw [List.mem_append] at he
        rcases he with he | he
        · rw [List.mem_append] at he
          rcases he with he | he
          · obtain ⟨pr', _, rfl⟩ := List.mem_map.mp he
            simp at heq
          · rw [log_skeleton_2d, List.mem_flatMap] at he
            obtain ⟨i, _, he⟩ := he
            obtain ⟨f', _, rfl⟩ := List.mem_map.mp he
            exact absurd heq (skeletonFrameEvent_ne_rigid3 ds i f' p f t q)
        · rw [log_camera, List.mem_flatMap] at he
          obtain ⟨f', _, he⟩ := he
          rcases List.mem_cons.mp he with rfl | he
          · simp at heq
          · rcases List.mem_cons.mp he with rfl | he
            · exact (Event.rigid3.inj heq.symm).1
            · simp at he
      · rw [List.mem_flatMap] at he
        obtain ⟨p', hp', he⟩ := he
        exact rigid3_path_phaseEventsTotal ext ds inputRes log_dir env p'
          e he p f t q heq
  · intro pLast resLast hlast hres f hf
    have hne : phases ≠ [] := by
      intro hh
      rw [hh] at hlast
      simp at hlast
    have hgl : phases.getLast hne = pLast := by
      have h1 := List.getLast?_eq_getLast_of_ne_nil hne
      rw [hlast] at h1
      exact (Option.some.inj h1).symm
    have hdecomp : phases.dropLast ++ [pLast] = phases := by
      rw [← hgl]
      exact List.dropLast_append_getLast hne
    have hfl : phases.flatMap (phaseEventsTotal ext ds inputRes log_dir env) =
        phases.dropLast.flatMap
          (phaseEventsTotal ext ds inputRes log_dir env) ++
          log_phase_result ext ds pLast resLast := by
      conv_lhs => rw [← hdecomp]
      rw [List.flatMap_append, List.flatMap_cons, List.flatMap_nil,
        List.append_nil]
      congr 1
      rw [phaseEventsTotal]
      rw [resolvePhaseResult] at hres
      by_cases h1 : pLast = "input"
      · rw [if_pos h1] at hres ⊢
        rw [Option.some.inj hres]
      · rw [if_neg h1] at hres ⊢
        by_cases h2 : (env pLast).isdir = true
        · rw [if_pos h2] at hres ⊢
          rcases hsel : selectIteration (env pLast).keys with _ | m
          · rw [hsel] at hres
            simp at hres
          · rw [hsel] at hres
            have hw : (env pLast).world m = resLast := by simpa using hres
            simp [hw]
        · rw [if_neg h2] at hres
          simp at hres
    rw [visibleCameraPose]
    have hv : camPoseEntry f (Event.viewCoords "world" "-Y") = none := rfl
    simp only [List.filterMap_cons, hv]
    rw [hfl]
    rw [List.filterMap_append, List.filterMap_append, List.filterMap_append,
      List.filterMap_append]
    rw [filterMap_camPose_phase ext ds pLast resLast hf]
    rw [List.getLast?_append, List.getLast?_append, List.getLast?_append,
      List.getLast?_append, List.getLast?_singleton]
    rfl

theorem C5_shared_camera_path_witness :
    ∃ evs, log_to_rerun wExtern c5Ds c3Res "logs" c5Env ["alpha", "beta"] =
        .ok evs ∧
      visibleCameraPose evs 0 = some ((2, 1, 0), (0, 0, 0, 1)) := by
  have hc : ∀ p ∈ ["alpha", "beta"], p ≠ "input" →
      (c5Env p).isdir = true → (c5Env p).keys ≠ [] := by
    intro p hp _ _
    rcases List.mem_cons.mp hp with rfl | hp
    · exact (by decide : (c5Env "alpha").keys ≠ [])
    · rcases List.mem_cons.mp hp with rfl | hp
      · exact (by decide : (c5Env "beta").keys ≠ [])
      · simp at hp
  have hrun : log_to_rerun wExtern c5Ds c3Res "logs" c5Env ["alpha", "beta"] =
      .ok (Event.viewCoords "world" "-Y" ::
        (log_input_frames c5Ds ++ log_skeleton_2d c5Ds ++
          log_camera wExtern c5Ds ++
          ["alpha", "beta"].flatMap
            (phaseEventsTotal wExtern c5Ds c3Res "logs" c5Env))) := by
    rw [log_to_rerun, runPhases_total wExtern c5Ds c3Res "logs" c5Env _ hc]
    rfl
  have h := C5_shared_camera_path wExtern c5Ds c3Res "logs" c5Env
    ["alpha", "beta"] hc hrun
  refine ⟨_, hrun, ?_⟩
  have h2 := h.2 "beta" c5ResB rfl rfl 0 (by decide)
  rw [h2]
  norm_num [c5ResB, wExtern]

/-- **C9.** The batch launcher discovers one run per walked directory whose
subdirectory list contains the `.hydra` sentinel; the run at position `i` is
assigned device `gpus[i % len(gpus)]`; with more than one device the runs are
dispatched to a process pool whose size equals the device count and with
exactly one device they run sequentially in-process; and each worker's first
two actions set the device-selection environment variables, before any
directory creation or logging action. -/
theorem C9_batch_launcher (walk : List (String × List String × List String))
    (args : Args) (ext : Extern) (dsOf : String → MultiPeopleDataset)
    (inputResOf : String → PhaseResult) (sourcesOf : String → String)
    (envOf : String → String → PhaseStore) :
    (∀ d, d ∈ discoverLogDirs walk ↔
      ∃ entry ∈ walk, entry.1 = d ∧ ".hydra" ∈ entry.2.1) ∧
    (1 < args.gpus.length →
      mainPlan args = .pool args.gpus.length
        (List.range args.log_dirs.length)) ∧
    (args.gpus.length = 1 →
      mainPlan args = .sequential (List.range args.log_dirs.length)) ∧
    ∀ i acts,
      launch_rerun_vis ext dsOf inputResOf sourcesOf envOf i args = .ok acts →
      ∃ save_dir rest, acts =
          Action.setEnv "EGL_DEVICE_ID"
              (natStr (args.gpus.getD (i % args.gpus.length) 0)) ::
            Action.setEnv "PYOPENGL_PLATFORM" "egl" ::
              Action.makedirs save_dir :: rest ∧
        ∀ a ∈ rest, ∀ k v, a ≠ Action.setEnv k v := by
  refine ⟨?_, ?_, ?_, ?_⟩
  · intro d
    rw [discoverLogDirs]
    constructor
    · intro hd
      obtain ⟨entry, hentry, rfl⟩ := List.mem_map.mp hd
      rw [List.mem_filter] at hentry
      exact ⟨entry, hentry.1, rfl, by simpa using hentry.2⟩
    · rintro ⟨entry, hentry, rfl, hsent⟩
      exact List.mem_map.mpr ⟨entry, List.mem_filter.mpr
        ⟨hentry, by simpa using hsent⟩, rfl⟩
  · intro h
    rw [mainPlan, if_pos h]
  · intro h
    rw [mainPlan, if_neg (by omega)]
  · intro i acts hacts
    rw [launch_rerun_vis] at hacts
    rcases hrrd : log_to_rrd ext (dsOf (args.log_dirs.getD i ""))
        (inputResOf (args.log_dirs.getD i ""))
        (sourcesOf (args.log_dirs.getD i ""))
        (args.log_dirs.getD i "")
        (match args.save_root with
         | some sr => sr ++ "/" ++ expName args.log_root (args.log_dirs.getD i "")
         | none => args.log_dirs.getD i "")
        (envOf (args.log_dirs.getD i "")) args.phases with _ | evs
    · rw [hrrd] at hacts
      simp [Except.map] at hacts
    · rw [hrrd] at hacts
      simp only [Except.map] at hacts
      obtain rfl : _ = acts := Except.ok.inj hacts
      refine ⟨_, evs.map Action.emit, rfl, ?_⟩
      intro a ha k v
      obtain ⟨e, _, rfl⟩ := List.mem_map.mp ha
      simp

theorem C9_batch_launcher_witness :
    discoverLogDirs c9Walk = ["runs/a"] ∧
    mainPlan c9Args = .pool 2 [0] ∧
    ∃ acts, launch_rerun_vis wExtern (fun _ => c7Ds) (fun _ => c3Res)
        (fun _ => "s") (fun _ => c3Env) 0 c9Args = .ok acts ∧
      acts.take 2 = [Action.setEnv "EGL_DEVICE_ID" "5",
        Action.setEnv "PYOPENGL_PLATFORM" "egl"] := by
  have h := C9_batch_launcher c9Walk c9Args wExtern (fun _ => c7Ds)
    (fun _ => c3Res) (fun _ => "s") (fun _ => c3Env)
  refine ⟨rfl, ?_, ?_⟩
  · have hp := h.2.1 (by decide)
    rw [hp]
    decide
  · have h5 : natStr 5 = "5" := by
      simp [natStr, toDigitsLE]
      rfl
    have hrrd : launch_rerun_vis wExtern (fun _ => c7Ds) (fun _ => c3Res)
        (fun _ => "s") (fun _ => c3Env) 0 c9Args =
        .ok [Action.setEnv "EGL_DEVICE_ID" (natStr 5),
          Action.setEnv "PYOPENGL_PLATFORM" "egl",
          Action.makedirs "runs/a",
          Action.emit (Event.printMsg "runs/a"),
          Action.emit (Event.printMsg ("SOURCES " ++ "s")),
          Action.emit (Event.printMsg "No tracks in dataset, skipping")] := rfl
    rw [h5] at hrrd
    obtain ⟨sd, rest, heq, _⟩ := h.2.2.2 0 _ hrrd
    exact ⟨_, hrrd, rfl⟩

/-- A `filterMap` that hits the same value on every element of a list. -/
theorem filterMap_const_some {α γ : Type} (l : List α) (h : α → Option γ)
    (c : γ) (hh : ∀ x ∈ l, h x = some c) :
    l.filterMap h = List.replicate l.length c := by
  induction l with
  | nil => rfl
  | cons x xs ih =>
    have hx := hh x (List.mem_cons_self x xs)
    simp only [List.filterMap_cons, hx, List.length_cons, List.replicate_succ]
    rw [ih fun y hy => hh y (List.mem_cons_of_mem x hy)]

/-- The timeline keys of one frame block of `log_phase_result` are all that
frame's key. -/
theorem phaseBlock_keys (ext : Extern) (ds : MultiPeopleDataset)
    (phase : String) (pr : PhaseResult) (f' : Nat) :
    (phaseCamEvent ext pr f' :: (List.range ds.track_ids.length).map
        (fun i => phaseTrackEvent ext ds phase (ext.runSmpl pr) i f')).filterMap
        Event.timelineKey =
      List.replicate (ds.track_ids.length + 1) f' := by
  have h := filterMap_const_some
    (phaseCamEvent ext pr f' :: (List.range ds.track_ids.length).map
      fun i => phaseTrackEvent ext ds phase (ext.runSmpl pr) i f')
    Event.timelineKey f' ?_
  · simpa using h
  · intro x hx
    rcases List.mem_cons.mp hx with rfl | hx
    · rfl
    · obtain ⟨j, _, rfl⟩ := List.mem_map.mp hx
      exact phaseTrackEvent_timelineKey ext ds phase (ext.runSmpl pr) j f'

/-- **C4** (amended). Within one phase's result logging
(`log_phase_result`), events are emitted in nondecreasing timeline-key
order, and for every frame `f` the phase camera pose event with key `f` is
emitted before every mesh/clear event with key `f`: the events keyed `f` are
exactly the camera pose followed by the per-track geometry events. Across
the whole run, however, this pose-before-geometry ordering does not hold for
skeleton events, because `log_to_rerun` runs `log_skeleton_2d` before
`log_camera` (see the counterexample). -/
theorem C4_phase_ordering (ext : Extern) (ds : MultiPeopleDataset)
    (phase : String) (pr : PhaseResult) :
    List.Pairwise (· ≤ ·)
      ((log_phase_result ext ds phase pr).filterMap Event.timelineKey) ∧
    ∀ f < ds.seq_len,
      (log_phase_result ext ds phase pr).filter
          (fun e => decide (e.timelineKey = some f)) =
        phaseCamEvent ext pr f ::
          (List.range ds.track_ids.length).map
            (fun i => phaseTrackEvent ext ds phase (ext.runSmpl pr) i f) := by
  constructor
  · unfold log_phase_result
    rw [filterMap_flatMap]
    rw [List.flatMap_def]
    rw [List.map_congr_left fun f' _ => phaseBlock_keys ext ds phase pr f']
    rw [List.pairwise_flatten]
    constructor
    · intro l' hl'
      obtain ⟨f', _, rfl⟩ := List.mem_map.mp hl'
      rw [List.pairwise_replicate]
      right
      exact le_refl _
    · rw [List.pairwise_map]
      apply List.Pairwise.imp ?_ (List.pairwise_lt_range ds.seq_len)
      intro a b hab x hx y hy
      rw [List.eq_of_mem_replicate hx, List.eq_of_mem_replicate hy]
      omega
  · intro f hf
    unfold log_phase_result
    rw [filter_flatMap]
    have hside : ∀ f' < ds.seq_len, f' ≠ f →
        List.filter (fun e => decide (e.timelineKey = some f))
          (phaseCamEvent ext pr f' :: (List.range ds.track_ids.length).map
            fun i => phaseTrackEvent ext ds phase (ext.runSmpl pr) i f') = [] := by
      intro f' _ hne
      rw [List.filter_eq_nil_iff]
      intro e he
      rcases List.mem_cons.mp he with rfl | he
      · simp [phaseCamEvent, Event.timelineKey, hne]
      · obtain ⟨j, _, rfl⟩ := List.mem_map.mp he
        simp [phaseTrackEvent_timelineKey, hne]
    rw [flatMap_range_single _ hf hside]
    rw [List.filter_eq_self]
    intro e he
    rcases List.mem_cons.mp he with rfl | he
    · simp [phaseCamEvent, Event.timelineKey]
    · obtain ⟨j, _, rfl⟩ := List.mem_map.mp he
      simp [phaseTrackEvent_timelineKey]

theorem C4_phase_ordering_witness :
    List.Pairwise (· ≤ ·)
      ((log_phase_result wExtern wDs "motion_chunks"
        wPhaseResult).filterMap Event.timelineKey) ∧
    (log_phase_result wExtern wDs "motion_chunks" wPhaseResult).filter
        (fun e => decide (e.timelineKey = some 0)) =
      phaseCamEvent wExtern wPhaseResult 0 ::
        (List.range wDs.track_ids.length).map
          (fun i => phaseTrackEvent wExtern wDs "motion_chunks"
            (wExtern.runSmpl wPhaseResult) i 0) := by
  obtain ⟨h1, h2⟩ := C4_phase_ordering wExtern wDs "motion_chunks" wPhaseResult
  exact ⟨h1, h2 0 (by decide)⟩

/-- **C4** counterexample: on the one-track, one-frame run `c4Ds` with no
phases, the skeleton overlay event with timeline key 0 is emitted strictly
before the defining camera's pose event with timeline key 0 (`log_to_rerun`
calls `log_skeleton_2d` before `log_camera`), so it is false that every
camera pose event tagged with a key is emitted before any skeleton event
tagged with the same key. -/
theorem C4_counterexample :
    log_to_rerun c4Extern c4Ds c3Res "logs" c4Env [] = .ok c4Events ∧
    c4Events.findIdx (isSkeletonOverlayAt 0 0) <
      c4Events.findIdx (isCameraPoseAt 0) ∧
    (c4Events.filter (isSkeletonOverlayAt 0 0)).length = 1 ∧
    (c4Events.filter (isCameraPoseAt 0)).length = 1 := by
  refine ⟨?_, by decide, by decide, by decide⟩
  have hgs : goodSegments (c4Ds.joints2d 0 0) = [] := by
    norm_num [goodSegments, skeleton_ids, segConfidence, segEndpoints,
      remappedJoint, c4Ds, List.filter]
  have hxy : goodJointsXY (c4Ds.joints2d 0 0) = [] :=
    (goodJointsXY_eq_nil _).mpr hgs
  have hev : skeletonFrameEvent c4Ds 0 0 = Event.cleared (skelPath 0) 0 := by
    simp only [skeletonFrameEvent, hxy, List.length_nil]
    simp
  have hsk : log_skeleton_2d c4Ds = [Event.cleared (skelPath 0) 0] := by
    rw [log_skeleton_2d]
    rw [show c4Ds.track_ids.length = 1 from rfl,
      (by decide : List.range 1 = [0]),
      List.flatMap_cons, List.flatMap_nil, List.append_nil]
    rw [show c4Ds.seq_len = 1 from rfl, (by decide : List.range 1 = [0]),
      List.map_cons, List.map_nil]
    rw [hev]
  rw [log_to_rerun]
  rw [show runPhases c4Extern c4Ds c3Res "logs" c4Env [] = .ok [] from rfl]
  simp only [Except.map]
  rw [hsk]
  rfl

end RerunVis
